import Mathlib

set_option linter.unusedVariables false

/-!
# Shallow embedding of `contracts/InstitutionalStaking.sol`

The contract is a custody-and-staking ledger for a single ERC20 principal
asset.  We embed its storage and every externally callable state transition
as pure Lean functions over `Nat` amounts and timestamps.

Modelling conventions:

* Solidity 0.8 uses checked arithmetic: additions and multiplications on
  `uint256` revert on overflow, so a completed execution never wraps; we
  model amounts and timestamps as unbounded `Nat` (the spec's §9 wide
  arithmetic), which agrees with every completed EVM execution.  Checked
  subtractions that occur in the source before their guards, i.e. the
  `deposited - staked` idle-balance reads, the `totalStaked -= amount` and
  `deposited -= amount` writes, are modelled faithfully with explicit
  underflow errors (`Err.arithUnderflow`, the EVM panic).
* `revert` semantics: each operation returns `Except Err`, and an error
  discards every intermediate write — the post-state observed by the chain
  is computed by `exec`, which keeps the pre-state on error.
* The external ERC20 transfer (`safeTransferFrom` / `safeTransfer`, the
  spec's CustodyGateway) is modelled by a `transferOk : Bool` oracle; a
  failed transfer reverts the whole operation (`Err.transferFailed`).
* Identities are `Fin n` so that the global sum `Σ staked` is a finite sum;
  `block.timestamp` is an explicit `now : Nat` argument.
* OpenZeppelin modifiers: `whenNotPaused` is the `paused` check run before
  the function body; `onlyRole(ADMIN_ROLE)` is the `admins` check;
  `_pause` / `_unpause` revert when already in the requested state
  (`Err.enforcedPause` / `Err.expectedPause`).
-/

namespace InstitutionalStaking

/-- The fixed-point scaling constant of the emission model, `1e18`. -/
def SCALE : Nat := 1000000000000000000

/-- The contract constant `SECONDS_PER_YEAR = 365 days` (line 131). -/
def SECONDS_PER_YEAR : Nat := 31536000

/-- The contract constant `ANNUAL_RATE_BPS = 500` basis points, i.e. 5% (line 132). -/
def ANNUAL_RATE_BPS : Nat := 500

/-- The per-identity `Account` struct of the contract (lines 26–33). -/
structure Account where
  deposited : Nat
  staked : Nat
  rewardsAccrued : Nat
  lastUpdate : Nat
  stakeStart : Nat
  rewardRemainder : Nat
deriving Repr, DecidableEq

attribute [ext] Account

/-- A fresh, never-touched account: Solidity mappings default every field
to zero. -/
def Account.zero : Account := ⟨0, 0, 0, 0, 0, 0⟩

/-- The contract's storage besides the `accounts` mapping: `rewardRate`,
`totalStaked`, the `Pausable` flag and the `ADMIN_ROLE` holders, over a
finite identity space `Fin n`. -/
structure State (n : Nat) where
  accounts : Fin n → Account
  totalStaked : Nat
  rewardRate : Nat
  paused : Bool
  admins : Fin n → Bool

/-- Typed revert reasons.  `insufficientBalance`, `invalidAmount`,
`nothingStaked` and `zeroAddress` are the contract's custom errors
(lines 51–54); `enforcedPause` / `expectedPause` come from OpenZeppelin
`Pausable`, `unauthorized` from `AccessControl`, `transferFailed` from a
failing `SafeERC20` transfer, and `arithUnderflow` is the checked-arithmetic
panic. -/
inductive Err where
  | insufficientBalance (available required : Nat)
  | invalidAmount
  | nothingStaked
  | zeroAddress
  | enforcedPause
  | expectedPause
  | unauthorized
  | transferFailed
  | arithUnderflow
deriving Repr, DecidableEq

/-- The accrual commit `_updateRewards` (contract lines 216–235).  The
source adds `rewards` to `rewardsAccrued` only under `rewards > 0`; adding
zero is the same account, so the guard is dropped.  `block.timestamp` is
`now`; the contract only ever calls this with `now ≥ lastUpdate` (timestamps
are monotone), where Nat subtraction agrees with the checked one. -/
def updateRewards (rewardRate now : Nat) (acct : Account) : Account :=
  if acct.lastUpdate = 0 then
    { acct with lastUpdate := now }
  else if acct.staked > 0 then
    let delta := now - acct.lastUpdate
    if delta > 0 then
      let raw := acct.staked * rewardRate * delta
      let totalScaled := raw + acct.rewardRemainder
      let rewards := totalScaled / SCALE
      { acct with
        rewardsAccrued := acct.rewardsAccrued + rewards
        rewardRemainder := totalScaled % SCALE
        lastUpdate := now }
    else
      { acct with lastUpdate := now }
  else
    { acct with lastUpdate := now }

/-- A sequence of accrual commits: `_updateRewards` called at each checkpoint
of `ts` in order, at a fixed `rewardRate`. -/
def commitSeq (rewardRate : Nat) (ts : List Nat) (acct : Account) : Account :=
  ts.foldl (fun a t => updateRewards rewardRate t a) acct

/-- The view `pendingRewards` (contract lines 162–170). -/
def pendingRewards (now : Nat) (user : Fin n) (s : State n) : Nat :=
  let acct := s.accounts user
  if acct.staked = 0 then acct.rewardsAccrued
  else
    let delta := now - acct.lastUpdate
    let raw := acct.staked * s.rewardRate * delta
    let totalScaled := raw + acct.rewardRemainder
    acct.rewardsAccrued + totalScaled / SCALE

/-- Principal deposit, `deposit(uint256)` (contract lines 66–73).
Modifier order: `whenNotPaused`, then the zero check, then the accrual
commit, then the custody pull, then `deposited += amount`. -/
def depositPrincipal (transferOk : Bool) (now : Nat) (caller : Fin n)
    (amount : Nat) (s : State n) : Except Err (State n) :=
  if s.paused then .error .enforcedPause
  else if amount = 0 then .error .invalidAmount
  else
    let acct := updateRewards s.rewardRate now (s.accounts caller)
    let acct1 := { acct with deposited := acct.deposited + amount }
    if transferOk then
      .ok { s with accounts := Function.update s.accounts caller acct1 }
    else .error .transferFailed

/-- Generic custody deposit, `deposit(address,uint256)` (contract lines 76–81), of an
arbitrary ERC20.  It never reads or writes any `Account` and does not call
`_updateRewards`; the ledger state is returned unchanged.  `token` is a raw
address (`0` = the zero address); `now` is the ambient timestamp, unused by
this operation. -/
def depositGeneric (transferOk : Bool) (now : Nat) (caller : Fin n)
    (token amount : Nat) (s : State n) : Except Err (State n) :=
  if s.paused then .error .enforcedPause
  else if amount = 0 then .error .invalidAmount
  else if token = 0 then .error .zeroAddress
  else if transferOk then .ok s
  else .error .transferFailed

/-- The `stake` operation (contract lines 83–96).  The idle-balance read
`acct.deposited - acct.staked` is a checked subtraction, hence the explicit
underflow branch.  No external transfer occurs. -/
def stake (now : Nat) (caller : Fin n) (amount : Nat) (s : State n) :
    Except Err (State n) :=
  if s.paused then .error .enforcedPause
  else if amount = 0 then .error .invalidAmount
  else
    let acct0 := s.accounts caller
    if acct0.deposited < acct0.staked then .error .arithUnderflow
    else if acct0.deposited - acct0.staked < amount then
      .error (.insufficientBalance (acct0.deposited - acct0.staked) amount)
    else
      let acct1 := updateRewards s.rewardRate now acct0
      let acct2 := if acct1.staked = 0 then { acct1 with stakeStart := now }
                   else acct1
      let acct3 := { acct2 with staked := acct2.staked + amount }
      .ok { s with
            accounts := Function.update s.accounts caller acct3
            totalStaked := s.totalStaked + amount }

/-- The `unstake` operation (contract lines 98–110). -/
def unstake (now : Nat) (caller : Fin n) (amount : Nat) (s : State n) :
    Except Err (State n) :=
  if s.paused then .error .enforcedPause
  else if amount = 0 then .error .invalidAmount
  else
    let acct0 := s.accounts caller
    if acct0.staked < amount then
      .error (.insufficientBalance acct0.staked amount)
    else
      let acct1 := updateRewards s.rewardRate now acct0
      let acct2 := { acct1 with staked := acct1.staked - amount }
      let acct3 := if acct2.staked = 0 then { acct2 with stakeStart := 0 }
                   else acct2
      if s.totalStaked < amount then .error .arithUnderflow
      else
        .ok { s with
              accounts := Function.update s.accounts caller acct3
              totalStaked := s.totalStaked - amount }

/-- Principal withdrawal, `withdraw(uint256,bool)` (contract lines 112–129):
withdraws idle principal and/or the accrued emission rewards.  Not gated by `paused`.  Returns the post-state
together with the payout `amountPrincipal + rewardsOut` pushed through the
custody gateway. -/
def withdrawPrincipal (transferOk : Bool) (now : Nat) (caller : Fin n)
    (amountPrincipal : Nat) (claimRewards : Bool) (s : State n) :
    Except Err (State n × Nat) :=
  let acct0 := s.accounts caller
  if acct0.deposited < acct0.staked then .error .arithUnderflow
  else if acct0.deposited - acct0.staked < amountPrincipal then
    .error (.insufficientBalance (acct0.deposited - acct0.staked)
              amountPrincipal)
  else
    let acct1 := updateRewards s.rewardRate now acct0
    let rewardsOut := if claimRewards then acct1.rewardsAccrued else 0
    let acct2 := if claimRewards then { acct1 with rewardsAccrued := 0 }
                 else acct1
    let acct3 := if amountPrincipal > 0 then
                   { acct2 with deposited := acct2.deposited - amountPrincipal }
                 else acct2
    if transferOk then
      .ok ({ s with accounts := Function.update s.accounts caller acct3 },
           amountPrincipal + rewardsOut)
    else .error .transferFailed

/-- Annual-rate withdrawal, `withdraw(uint256)` (contract lines 136–159): the
duration-prorated 5% APR path.  Not gated by `paused`; does not call `_updateRewards`.  The
`block.timestamp - start` and the two decrements are checked subtractions,
hence the explicit underflow branches (unreachable from states satisfying
the ledger invariants).  Returns the post-state and the payout
`amount + rewards`. -/
def withdrawAnnual (transferOk : Bool) (now : Nat) (caller : Fin n)
    (amount : Nat) (s : State n) : Except Err (State n × Nat) :=
  let acct0 := s.accounts caller
  if amount = 0 then .error .invalidAmount
  else if acct0.staked < amount then
    .error (.insufficientBalance acct0.staked amount)
  else if acct0.staked = 0 then .error .nothingStaked
  else
    let acct1 := if acct0.stakeStart = 0 then { acct0 with stakeStart := now }
                 else acct0
    let start := if acct0.stakeStart = 0 then now else acct0.stakeStart
    if now < start then .error .arithUnderflow
    else
      let duration := now - start
      let rewards := amount * ANNUAL_RATE_BPS * duration
                     / (SECONDS_PER_YEAR * 10000)
      let acct2 := { acct1 with staked := acct1.staked - amount }
      if s.totalStaked < amount then .error .arithUnderflow
      else if acct2.deposited < amount then .error .arithUnderflow
      else
        let acct3 := { acct2 with deposited := acct2.deposited - amount }
        let acct4 := if acct3.staked > 0 then { acct3 with stakeStart := now }
                     else { acct3 with stakeStart := 0 }
        if transferOk then
          .ok ({ s with
                 accounts := Function.update s.accounts caller acct4
                 totalStaked := s.totalStaked - amount },
               amount + rewards)
        else .error .transferFailed

/-- The `setRewardRate` operation (contract lines 200–204): admin-only, no pause gate, no
accrual commit. -/
def setRewardRate (caller : Fin n) (newRate : Nat) (s : State n) :
    Except Err (State n) :=
  if s.admins caller then .ok { s with rewardRate := newRate }
  else .error .unauthorized

/-- The `pause` operation (contract lines 206–208): admin-only; OpenZeppelin `_pause`
reverts if already paused. -/
def pause (caller : Fin n) (s : State n) : Except Err (State n) :=
  if s.admins caller then
    if s.paused then .error .enforcedPause
    else .ok { s with paused := true }
  else .error .unauthorized

/-- The `unpause` operation (contract lines 210–212): admin-only; OpenZeppelin `_unpause`
reverts if not paused. -/
def unpause (caller : Fin n) (s : State n) : Except Err (State n) :=
  if s.admins caller then
    if s.paused then .ok { s with paused := false }
    else .error .expectedPause
  else .error .unauthorized

/-- The full operation surface of the contract, one constructor per external
mutating entry point. -/
inductive Op (n : Nat) where
  | depositPrincipal (transferOk : Bool) (now : Nat) (caller : Fin n)
      (amount : Nat)
  | depositGeneric (transferOk : Bool) (now : Nat) (caller : Fin n)
      (token amount : Nat)
  | stake (now : Nat) (caller : Fin n) (amount : Nat)
  | unstake (now : Nat) (caller : Fin n) (amount : Nat)
  | withdrawPrincipal (transferOk : Bool) (now : Nat) (caller : Fin n)
      (amountPrincipal : Nat) (claimRewards : Bool)
  | withdrawAnnual (transferOk : Bool) (now : Nat) (caller : Fin n)
      (amount : Nat)
  | setRewardRate (caller : Fin n) (newRate : Nat)
  | pause (caller : Fin n)
  | unpause (caller : Fin n)

/-- Dispatch an operation on a ledger state (payouts projected away). -/
def step (op : Op n) (s : State n) : Except Err (State n) :=
  match op with
  | .depositPrincipal ok now c a => depositPrincipal ok now c a s
  | .depositGeneric ok now c t a => depositGeneric ok now c t a s
  | .stake now c a => stake now c a s
  | .unstake now c a => unstake now c a s
  | .withdrawPrincipal ok now c a cl =>
      (withdrawPrincipal ok now c a cl s).map Prod.fst
  | .withdrawAnnual ok now c a => (withdrawAnnual ok now c a s).map Prod.fst
  | .setRewardRate c r => setRewardRate c r s
  | .pause c => pause c s
  | .unpause c => unpause c s

/-- The chain-observable post-state: EVM `revert` discards every write of a
failed call, so on error the ledger is the pre-state. -/
def exec (op : Op n) (s : State n) : State n :=
  match step op s with
  | .ok s' => s'
  | .error _ => s

/-- The sum of the `staked` field over all accounts. -/
def sumStaked (s : State n) : Nat :=
  ∑ i : Fin n, (s.accounts i).staked


/-- A concrete one-account ledger used to instantiate theorems: account
`⟨deposited 100, staked 40, rewardsAccrued 7, lastUpdate 10, stakeStart 10,
rewardRemainder 5⟩`, consistent `totalStaked`, unpaused, admin caller. -/
def sDemo : State 1 :=
  { accounts := fun _ => ⟨100, 40, 7, 10, 10, 5⟩
    totalStaked := 40
    rewardRate := 2
    paused := false
    admins := fun _ => true }

/-- A concrete one-account ledger whose account has nothing staked. -/
def sNoStake : State 1 :=
  { accounts := fun _ => ⟨10, 0, 0, 5, 0, 0⟩
    totalStaked := 0
    rewardRate := 2
    paused := false
    admins := fun _ => true }

/-- The ledger of Scenario E right after staking 100 units at time `t0`:
`deposited = staked = 100`, `stakeStart = lastUpdate = t0`. -/
def scenarioE (t0 : Nat) : State 1 :=
  { accounts := fun _ => ⟨100, 100, 0, t0, t0, 0⟩
    totalStaked := 100
    rewardRate := 0
    paused := false
    admins := fun _ => true }

/-! ## Basic facts about the accrual commit -/

theorem SCALE_pos : 0 < SCALE := by norm_num [SCALE]

@[simp]
theorem updateRewards_staked (r t : Nat) (a : Account) :
    (updateRewards r t a).staked = a.staked := by
  simp only [updateRewards]; split_ifs <;> rfl

@[simp]
theorem updateRewards_deposited (r t : Nat) (a : Account) :
    (updateRewards r t a).deposited = a.deposited := by
  simp only [updateRewards]; split_ifs <;> rfl

@[simp]
theorem updateRewards_stakeStart (r t : Nat) (a : Account) :
    (updateRewards r t a).stakeStart = a.stakeStart := by
  simp only [updateRewards]; split_ifs <;> rfl

@[simp]
theorem updateRewards_lastUpdate (r t : Nat) (a : Account) :
    (updateRewards r t a).lastUpdate = t := by
  simp only [updateRewards]; split_ifs <;> rfl

theorem updateRewards_remainder_lt (r t : Nat) (a : Account)
    (h : a.rewardRemainder < SCALE) :
    (updateRewards r t a).rewardRemainder < SCALE := by
  simp only [updateRewards]; split_ifs <;>
    first
      | exact h
      | exact Nat.mod_lt _ SCALE_pos

/-- Carrying a remainder through a division splits exactly: dividing
`A + m` by `K`, then dividing `B` plus the carried remainder, credits the
same quotient and leaves the same remainder as dividing `A + B + m` once. -/
theorem carry_split (K A B m : Nat) (hK : 0 < K) :
    (A + m) / K + (B + (A + m) % K) / K = (A + B + m) / K ∧
    (B + (A + m) % K) % K = (A + B + m) % K := by
  have h2 : (A + m) % K + K * ((A + m) / K) = A + m := Nat.mod_add_div (A + m) K
  have h : A + B + m = B + (A + m) % K + K * ((A + m) / K) := by
    generalize (A + m) % K = p at h2 ⊢
    generalize K * ((A + m) / K) = w at h2 ⊢
    omega
  constructor
  · rw [h, Nat.add_mul_div_left _ _ hK]
    exact Nat.add_comm _ _
  · rw [h, Nat.add_mul_mod_self_left]


/-- A commit on an account that is not staking only moves the checkpoint. -/
theorem updateRewards_of_zero_staked (r t : Nat) (a : Account)
    (h0 : a.lastUpdate ≠ 0) (h : a.staked = 0) :
    updateRewards r t a = { a with lastUpdate := t } := by
  simp [updateRewards, h0, h]

/-- A commit at the account's own checkpoint is a no-op. -/
theorem updateRewards_eq_self (r : Nat) (a : Account) (h0 : a.lastUpdate ≠ 0) :
    updateRewards r a.lastUpdate a = a := by
  simp [updateRewards, h0]

/-- The accruing branch of the commit, written out. -/
theorem updateRewards_of_pos (r t : Nat) (a : Account)
    (h0 : a.lastUpdate ≠ 0) (hst : a.staked ≠ 0) (hlt : a.lastUpdate < t) :
    updateRewards r t a =
      { a with
        rewardsAccrued := a.rewardsAccrued
          + (a.staked * r * (t - a.lastUpdate) + a.rewardRemainder) / SCALE
        rewardRemainder :=
          (a.staked * r * (t - a.lastUpdate) + a.rewardRemainder) % SCALE
        lastUpdate := t } := by
  have h1 : 0 < a.staked := Nat.pos_of_ne_zero hst
  have h2 : 0 < t - a.lastUpdate := by omega
  simp [updateRewards, h0, h1, h2]

/-- Committing at an intermediate checkpoint `b` and then at `c` is the same
as committing once at `c`, for any account with a genuine (nonzero) last
checkpoint and monotone times: the remainder carry makes accrual exact. -/
theorem updateRewards_comp (r b c : Nat) (a : Account)
    (h0 : a.lastUpdate ≠ 0) (hb : a.lastUpdate ≤ b) (hbc : b ≤ c) :
    updateRewards r c (updateRewards r b a) = updateRewards r c a := by
  by_cases hst : a.staked = 0
  · rw [updateRewards_of_zero_staked r b a h0 hst]
    rw [updateRewards_of_zero_staked r c _ (by simp; omega) (by simp [hst])]
    rw [updateRewards_of_zero_staked r c a h0 hst]
  · by_cases hb2 : a.lastUpdate = b
    · rw [← hb2, updateRewards_eq_self r a h0]
    · have hlt : a.lastUpdate < b := by omega
      by_cases hbc2 : b = c
      · subst hbc2
        have h := updateRewards_eq_self r (updateRewards r b a)
          (by simp; omega)
        rwa [updateRewards_lastUpdate] at h
      · have hlt2 : b < c := by omega
        have hAB : a.staked * r * (b - a.lastUpdate)
              + a.staked * r * (c - b)
            = a.staked * r * (c - a.lastUpdate) := by
          rw [← Nat.mul_add]
          congr 1
          omega
        have hA := carry_split SCALE (a.staked * r * (b - a.lastUpdate))
          (a.staked * r * (c - b)) a.rewardRemainder SCALE_pos
        rw [updateRewards_of_pos r b a h0 hst hlt]
        rw [updateRewards_of_pos r c _ (by simp; omega) (by simp [hst])
          (by simp; omega)]
        rw [updateRewards_of_pos r c a h0 hst (by omega)]
        refine Account.ext rfl rfl ?_ rfl rfl ?_
        · show a.rewardsAccrued
              + (a.staked * r * (b - a.lastUpdate) + a.rewardRemainder) / SCALE
              + (a.staked * r * (c - b)
                 + (a.staked * r * (b - a.lastUpdate) + a.rewardRemainder)
                   % SCALE) / SCALE
            = a.rewardsAccrued
              + (a.staked * r * (c - a.lastUpdate) + a.rewardRemainder) / SCALE
          rw [Nat.add_assoc, hA.1, hAB]
        · show (a.staked * r * (c - b)
              + (a.staked * r * (b - a.lastUpdate) + a.rewardRemainder)
                % SCALE) % SCALE
            = (a.staked * r * (c - a.lastUpdate) + a.rewardRemainder) % SCALE
          rw [hA.2, hAB]

/-- A nonempty ascending chain starting at `x` ends no lower than `x`. -/
theorem chain_le_of_getLast :
    ∀ (ts : List Nat) (x c : Nat), List.Chain (· ≤ ·) x ts →
      ts.getLast? = some c → x ≤ c := by
  intro ts
  induction ts with
  | nil => intro x c _ h; simp at h
  | cons t ts ih =>
    intro x c hch hl
    cases hch with
    | cons hxt hch2 =>
      cases ts with
      | nil => simp [List.getLast?] at hl; omega
      | cons u us =>
        rw [List.getLast?_cons_cons] at hl
        exact le_trans hxt (ih t c hch2 hl)

/-- Committing along any ascending chain of checkpoints that ends at `c` is
the same as committing once at `c`. -/
theorem commitSeq_eq_single (r : Nat) :
    ∀ (ts : List Nat) (a : Account) (c : Nat), a.lastUpdate ≠ 0 →
      List.Chain (· ≤ ·) a.lastUpdate ts → ts.getLast? = some c →
      commitSeq r ts a = updateRewards r c a := by
  intro ts
  induction ts with
  | nil => intro a c _ _ h; simp at h
  | cons t ts ih =>
    intro a c h0 hchain hlast
    cases hchain with
    | cons hat hch2 =>
      have hstep : commitSeq r (t :: ts) a = commitSeq r ts (updateRewards r t a) :=
        rfl
      cases ts with
      | nil =>
        simp [List.getLast?] at hlast
        subst hlast
        simp [commitSeq]
      | cons u us =>
        rw [List.getLast?_cons_cons] at hlast
        rw [hstep]
        have h1 : (updateRewards r t a).lastUpdate = t :=
          updateRewards_lastUpdate r t a
        have htc : t ≤ c := chain_le_of_getLast (u :: us) t c hch2 hlast
        rw [ih (updateRewards r t a) c (by rw [h1]; omega)
          (by rw [h1]; exact hch2) hlast]
        exact updateRewards_comp r t c a h0 hat htc

/-- C1: splitting invariance of accrual.  For every account with a genuine
checkpoint `a.lastUpdate = t₀ ≠ 0`, every constant staked amount and
`rewardRate`, and every partition of the interval `[t₀, c]` into
sub-checkpoints (an ascending chain `ts` from `t₀` ending at `c`),
committing `_updateRewards` at each sub-checkpoint yields exactly the same
final account — in particular the same `rewardsAccrued` and the same
`rewardRemainder` — as committing once over the full interval. -/
theorem accrual_splitting_invariance (rate : Nat) (a : Account)
    (ts : List Nat) (c : Nat) (h0 : a.lastUpdate ≠ 0)
    (hchain : List.Chain (· ≤ ·) a.lastUpdate ts)
    (hlast : ts.getLast? = some c) :
    commitSeq rate ts a = updateRewards rate c a :=
  commitSeq_eq_single rate ts a c h0 hchain hlast

theorem accrual_splitting_invariance_witness :
    commitSeq 3 [12, 15, 20] ⟨100, 5, 7, 10, 10, 999⟩
      = updateRewards 3 20 ⟨100, 5, 7, 10, 10, 999⟩ :=
  accrual_splitting_invariance 3 ⟨100, 5, 7, 10, 10, 999⟩ [12, 15, 20] 20
    (by decide)
    (List.Chain.cons (by decide)
      (List.Chain.cons (by decide) (List.Chain.cons (by decide) List.Chain.nil)))
    (by decide)

/-! ## C2: atomicity on error -/

/-- C2: atomicity on error.  For every operation of the contract's surface
(`depositPrincipal`, `depositGeneric`, `stake`, `unstake`,
`withdrawPrincipal`, `withdrawAnnual`, `setRewardRate`, `pause`, `unpause`)
and every starting state, if the operation returns an error — including a
failed custody transfer — the chain-observable ledger state (`exec`, the
EVM revert semantics) is exactly the starting state: no partial mutation is
ever visible. -/
theorem atomicity_on_error {n : Nat} (op : Op n) (s : State n)
    (h : ∃ e, step op s = .error e) : exec op s = s := by
  obtain ⟨e, he⟩ := h
  simp [exec, he]

theorem atomicity_on_error_witness :
    exec (.stake 5 0 0) sDemo = sDemo :=
  atomicity_on_error (.stake 5 0 0) sDemo ⟨.invalidAmount, rfl⟩

/-! ## Success shapes of the operations -/

/-- Pointwise-equal-off-`c` account maps have sums differing only at `c`. -/
theorem sum_staked_eq_update_self {n : Nat} (f g : Fin n → Account) (c : Fin n)
    (hx : ∀ x, x ≠ c → g x = f x) :
    (∑ x : Fin n, (g x).staked) + (f c).staked
      = (∑ x : Fin n, (f x).staked) + (g c).staked := by
  classical
  have hfun : ∀ x, (g x).staked
      = Function.update (fun y => (f y).staked) c ((g c).staked) x := by
    intro x
    by_cases hxc : x = c
    · subst hxc; simp
    · simp [Function.update, hxc, hx x hxc]
  rw [Finset.sum_congr rfl (fun x _ => hfun x)]
  rw [Finset.sum_update_of_mem (Finset.mem_univ c)]
  rw [Finset.sum_eq_sum_diff_singleton_add (Finset.mem_univ c)
    (fun y => (f y).staked)]
  ring

/-- What a successful `depositPrincipal` did to the fields the invariants
track: accrual commit on the caller, then `deposited += amount`. -/
theorem depositPrincipal_ok {n : Nat} {tOk : Bool} {now : Nat} {c : Fin n}
    {amt : Nat} {s s' : State n}
    (h : depositPrincipal tOk now c amt s = .ok s') :
    s'.totalStaked = s.totalStaked ∧
    (∀ x, x ≠ c → s'.accounts x = s.accounts x) ∧
    (s'.accounts c).staked = (s.accounts c).staked ∧
    (s'.accounts c).rewardRemainder
      = (updateRewards s.rewardRate now (s.accounts c)).rewardRemainder := by
  simp only [depositPrincipal] at h
  split_ifs at h <;> try exact Except.noConfusion h
  cases h
  exact ⟨rfl, fun x hx => by simp [Function.update, hx],
    by simp [Function.update], by simp [Function.update]⟩

/-- What a successful `depositGeneric` did: nothing at all to the ledger. -/
theorem depositGeneric_ok {n : Nat} {tOk : Bool} {now : Nat} {c : Fin n}
    {token amt : Nat} {s s' : State n}
    (h : depositGeneric tOk now c token amt s = .ok s') : s' = s := by
  simp only [depositGeneric] at h
  split_ifs at h <;> try exact Except.noConfusion h
  cases h
  rfl

/-- What a successful `stake` did to the fields the invariants track. -/
theorem stake_ok {n : Nat} {now : Nat} {c : Fin n} {amt : Nat} {s s' : State n}
    (h : stake now c amt s = .ok s') :
    s'.totalStaked = s.totalStaked + amt ∧
    (∀ x, x ≠ c → s'.accounts x = s.accounts x) ∧
    (s'.accounts c).staked = (s.accounts c).staked + amt ∧
    (s'.accounts c).rewardRemainder
      = (updateRewards s.rewardRate now (s.accounts c)).rewardRemainder := by
  simp only [stake] at h
  split_ifs at h <;> try exact Except.noConfusion h
  all_goals cases h
  all_goals exact ⟨rfl, fun x hx => by simp [Function.update, hx],
    by simp [Function.update], by simp [Function.update]⟩

/-- What a successful `unstake` did to the fields the invariants track. -/
theorem unstake_ok {n : Nat} {now : Nat} {c : Fin n} {amt : Nat} {s s' : State n}
    (h : unstake now c amt s = .ok s') :
    amt ≤ (s.accounts c).staked ∧ amt ≤ s.totalStaked ∧
    s'.totalStaked = s.totalStaked - amt ∧
    (∀ x, x ≠ c → s'.accounts x = s.accounts x) ∧
    (s'.accounts c).staked = (s.accounts c).staked - amt ∧
    (s'.accounts c).rewardRemainder
      = (updateRewards s.rewardRate now (s.accounts c)).rewardRemainder := by
  simp only [unstake] at h
  split_ifs at h with h1 h2 h3 h4 h5 <;> try exact Except.noConfusion h
  all_goals cases h
  all_goals exact ⟨by omega, by omega, rfl,
    fun x hx => by simp [Function.update, hx],
    by simp [Function.update], by simp [Function.update]⟩

/-- What a successful `withdrawPrincipal` did: commit, optional reward
claim, principal decrease, and the payout it pushed to custody. -/
theorem withdrawPrincipal_ok {n : Nat} {tOk : Bool} {now : Nat} {c : Fin n}
    {p : Nat} {cl : Bool} {s : State n} {r : State n × Nat}
    (h : withdrawPrincipal tOk now c p cl s = .ok r) :
    (s.accounts c).staked ≤ (s.accounts c).deposited ∧
    p ≤ (s.accounts c).deposited - (s.accounts c).staked ∧
    r.1.totalStaked = s.totalStaked ∧
    (∀ x, x ≠ c → r.1.accounts x = s.accounts x) ∧
    (r.1.accounts c).staked = (s.accounts c).staked ∧
    (r.1.accounts c).deposited = (s.accounts c).deposited - p ∧
    (r.1.accounts c).rewardsAccrued
      = (if cl then 0
         else (updateRewards s.rewardRate now (s.accounts c)).rewardsAccrued) ∧
    (r.1.accounts c).rewardRemainder
      = (updateRewards s.rewardRate now (s.accounts c)).rewardRemainder ∧
    (r.1.accounts c).lastUpdate = now ∧
    (r.1.accounts c).stakeStart = (s.accounts c).stakeStart ∧
    r.2 = p + (if cl then
      (updateRewards s.rewardRate now (s.accounts c)).rewardsAccrued else 0) := by
  simp only [withdrawPrincipal] at h
  split_ifs at h with h1 h2 h3 h4 <;> try exact Except.noConfusion h
  all_goals cases h
  all_goals refine ⟨by omega, by omega, rfl,
    fun x hx => by simp [Function.update, hx], ?_, ?_, ?_, ?_, ?_, ?_, ?_⟩
  all_goals simp_all [Function.update]
  all_goals omega

set_option maxHeartbeats 1600000 in
/-- What a successful `withdrawAnnual` did, including its payout formula. -/
theorem withdrawAnnual_ok {n : Nat} {tOk : Bool} {now : Nat} {c : Fin n}
    {amt : Nat} {s : State n} {r : State n × Nat}
    (h : withdrawAnnual tOk now c amt s = .ok r) :
    amt ≠ 0 ∧ amt ≤ (s.accounts c).staked ∧ amt ≤ s.totalStaked ∧
    amt ≤ (s.accounts c).deposited ∧
    r.1.totalStaked = s.totalStaked - amt ∧
    (∀ x, x ≠ c → r.1.accounts x = s.accounts x) ∧
    (r.1.accounts c).staked = (s.accounts c).staked - amt ∧
    (r.1.accounts c).deposited = (s.accounts c).deposited - amt ∧
    (r.1.accounts c).rewardsAccrued = (s.accounts c).rewardsAccrued ∧
    (r.1.accounts c).rewardRemainder = (s.accounts c).rewardRemainder ∧
    (r.1.accounts c).lastUpdate = (s.accounts c).lastUpdate ∧
    r.2 = amt + amt * ANNUAL_RATE_BPS
      * (now - (if (s.accounts c).stakeStart = 0 then now
                else (s.accounts c).stakeStart))
      / (SECONDS_PER_YEAR * 10000) := by
  simp only [withdrawAnnual] at h
  split_ifs at h <;> try exact Except.noConfusion h
  all_goals cases h
  all_goals refine ⟨by omega, by omega, by omega, by simp_all, rfl,
    fun x hx => by simp [Function.update, hx], ?_, ?_, ?_, ?_, ?_, ?_⟩
  all_goals simp_all [Function.update]

/-- What a successful `setRewardRate` did: only the global rate changes. -/
theorem setRewardRate_ok {n : Nat} {c : Fin n} {newRate : Nat} {s s' : State n}
    (h : setRewardRate c newRate s = .ok s') :
    s.admins c = true ∧ s' = { s with rewardRate := newRate } := by
  simp only [setRewardRate] at h
  split_ifs at h with h1 <;> try exact Except.noConfusion h
  cases h
  exact ⟨h1, rfl⟩

/-- What a successful `pause` did: only the flag flips. -/
theorem pause_ok {n : Nat} {c : Fin n} {s s' : State n}
    (h : pause c s = .ok s') :
    s.admins c = true ∧ s' = { s with paused := true } := by
  simp only [pause] at h
  split_ifs at h with h1 h2 <;> try exact Except.noConfusion h
  cases h
  exact ⟨h1, rfl⟩

/-- What a successful `unpause` did: only the flag flips. -/
theorem unpause_ok {n : Nat} {c : Fin n} {s s' : State n}
    (h : unpause c s = .ok s') :
    s.admins c = true ∧ s' = { s with paused := false } := by
  simp only [unpause] at h
  split_ifs at h with h1 h2 <;> try exact Except.noConfusion h
  cases h
  exact ⟨h1, rfl⟩

/-! ## C3: the global sum invariant -/

/-- C3: global sum invariant.  If `totalStaked = Σ staked` holds before an
operation, it holds after it (`exec` is the chain-observable post-state, so
this covers every completed operation: `stake` adds `amount` to both sides,
`unstake` and `withdrawAnnual` subtract it from both, and no other
operation changes either). -/
theorem totalStaked_eq_sumStaked {n : Nat} (op : Op n) (s : State n)
    (h : s.totalStaked = sumStaked s) :
    (exec op s).totalStaked = sumStaked (exec op s) := by
  cases hs : step op s with
  | error e => simpa [exec, hs] using h
  | ok s' =>
    have hex : exec op s = s' := by simp [exec, hs]
    rw [hex]
    unfold sumStaked at h ⊢
    cases op with
    | depositPrincipal tOk now c amt =>
      simp only [step] at hs
      obtain ⟨h1, h2, h3, _⟩ := depositPrincipal_ok hs
      have hsum := sum_staked_eq_update_self s.accounts s'.accounts c h2
      omega
    | depositGeneric tOk now c token amt =>
      simp only [step] at hs
      cases depositGeneric_ok hs
      exact h
    | stake now c amt =>
      simp only [step] at hs
      obtain ⟨h1, h2, h3, _⟩ := stake_ok hs
      have hsum := sum_staked_eq_update_self s.accounts s'.accounts c h2
      omega
    | unstake now c amt =>
      simp only [step] at hs
      obtain ⟨ha, hb, h1, h2, h3, _⟩ := unstake_ok hs
      have hsum := sum_staked_eq_update_self s.accounts s'.accounts c h2
      omega
    | withdrawPrincipal tOk now c p cl =>
      simp only [step] at hs
      cases hr : withdrawPrincipal tOk now c p cl s with
      | error e => rw [hr] at hs; exact Except.noConfusion hs
      | ok r =>
        rw [hr] at hs
        have hr1 : r.1 = s' := by simpa [Except.map] using hs
        subst hr1
        obtain ⟨_, _, h1, h2, h3, _⟩ := withdrawPrincipal_ok hr
        have hsum := sum_staked_eq_update_self s.accounts r.1.accounts c h2
        omega
    | withdrawAnnual tOk now c amt =>
      simp only [step] at hs
      cases hr : withdrawAnnual tOk now c amt s with
      | error e => rw [hr] at hs; exact Except.noConfusion hs
      | ok r =>
        rw [hr] at hs
        have hr1 : r.1 = s' := by simpa [Except.map] using hs
        subst hr1
        obtain ⟨_, ha, hb, _, h1, h2, h3, _⟩ := withdrawAnnual_ok hr
        have hsum := sum_staked_eq_update_self s.accounts r.1.accounts c h2
        omega
    | setRewardRate c nr =>
      simp only [step] at hs
      obtain ⟨_, rfl⟩ := setRewardRate_ok hs
      simpa using h
    | pause c =>
      simp only [step] at hs
      obtain ⟨_, rfl⟩ := pause_ok hs
      simpa using h
    | unpause c =>
      simp only [step] at hs
      obtain ⟨_, rfl⟩ := unpause_ok hs
      simpa using h

theorem totalStaked_eq_sumStaked_witness :
    (exec (.stake 12 0 30) sDemo).totalStaked
      = sumStaked (exec (.stake 12 0 30) sDemo) :=
  totalStaked_eq_sumStaked (.stake 12 0 30) sDemo (by decide)

/-! ## C6: the remainder bound invariant -/

/-- C6: remainder bound invariant.  If every account has
`rewardRemainder < SCALE` before an operation, the bound still holds for
every account after it: the only write to `rewardRemainder` is
`totalScaled % SCALE` inside the accrual commit. -/
theorem rewardRemainder_lt_SCALE {n : Nat} (op : Op n) (s : State n)
    (h : ∀ i, (s.accounts i).rewardRemainder < SCALE) :
    ∀ i, ((exec op s).accounts i).rewardRemainder < SCALE := by
  intro i
  cases hs : step op s with
  | error e =>
    have hex : exec op s = s := by simp [exec, hs]
    rw [hex]; exact h i
  | ok s' =>
    have hex : exec op s = s' := by simp [exec, hs]
    rw [hex]
    cases op with
    | depositPrincipal tOk now c amt =>
      simp only [step] at hs
      obtain ⟨_, h2, _, h4⟩ := depositPrincipal_ok hs
      by_cases hic : i = c
      · subst hic; rw [h4]; exact updateRewards_remainder_lt _ _ _ (h i)
      · rw [h2 i hic]; exact h i
    | depositGeneric tOk now c token amt =>
      simp only [step] at hs
      cases depositGeneric_ok hs
      exact h i
    | stake now c amt =>
      simp only [step] at hs
      obtain ⟨_, h2, _, h4⟩ := stake_ok hs
      by_cases hic : i = c
      · subst hic; rw [h4]; exact updateRewards_remainder_lt _ _ _ (h i)
      · rw [h2 i hic]; exact h i
    | unstake now c amt =>
      simp only [step] at hs
      obtain ⟨_, _, _, h2, _, h4⟩ := unstake_ok hs
      by_cases hic : i = c
      · subst hic; rw [h4]; exact updateRewards_remainder_lt _ _ _ (h i)
      · rw [h2 i hic]; exact h i
    | withdrawPrincipal tOk now c p cl =>
      simp only [step] at hs
      cases hr : withdrawPrincipal tOk now c p cl s with
      | error e => rw [hr] at hs; exact Except.noConfusion hs
      | ok r =>
        rw [hr] at hs
        have hr1 : r.1 = s' := by simpa [Except.map] using hs
        subst hr1
        obtain ⟨_, _, _, h2, _, _, _, h4, _⟩ := withdrawPrincipal_ok hr
        by_cases hic : i = c
        · subst hic; rw [h4]; exact updateRewards_remainder_lt _ _ _ (h i)
        · rw [h2 i hic]; exact h i
    | withdrawAnnual tOk now c amt =>
      simp only [step] at hs
      cases hr : withdrawAnnual tOk now c amt s with
      | error e => rw [hr] at hs; exact Except.noConfusion hs
      | ok r =>
        rw [hr] at hs
        have hr1 : r.1 = s' := by simpa [Except.map] using hs
        subst hr1
        obtain ⟨_, _, _, _, _, h2, _, _, _, h4, _⟩ := withdrawAnnual_ok hr
        by_cases hic : i = c
        · subst hic; rw [h4]; exact h i
        · rw [h2 i hic]; exact h i
    | setRewardRate c nr =>
      simp only [step] at hs
      obtain ⟨_, rfl⟩ := setRewardRate_ok hs
      exact h i
    | pause c =>
      simp only [step] at hs
      obtain ⟨_, rfl⟩ := pause_ok hs
      exact h i
    | unpause c =>
      simp only [step] at hs
      obtain ⟨_, rfl⟩ := unpause_ok hs
      exact h i

theorem rewardRemainder_lt_SCALE_witness :
    ((exec (.unstake 42 0 10) sDemo).accounts 0).rewardRemainder < SCALE :=
  rewardRemainder_lt_SCALE (.unstake 42 0 10) sDemo (by decide) 0

/-! ## C4: pausing never traps assets -/

/-- C4: pause never traps assets.  While `paused` is set, `stake` fails
with the pause error, but both withdrawal paths ignore the flag entirely:
`withdrawPrincipal` succeeds whenever its idle-balance precondition holds,
and `withdrawAnnual` succeeds whenever its own preconditions (nonzero
amount, sufficient stake, and the ledger invariants) hold, with a working
custody transfer. -/
theorem pause_never_traps {n : Nat} (s : State n) (now : Nat)
    (caller : Fin n) (amt p a : Nat) (cl : Bool)
    (hp : s.paused = true)
    (hws : (s.accounts caller).staked ≤ (s.accounts caller).deposited)
    (hwp : p ≤ (s.accounts caller).deposited - (s.accounts caller).staked)
    (ha0 : a ≠ 0) (has : a ≤ (s.accounts caller).staked)
    (hss : (s.accounts caller).stakeStart ≤ now)
    (hts : a ≤ s.totalStaked) :
    stake now caller amt s = .error .enforcedPause ∧
    (withdrawPrincipal true now caller p cl s).isOk = true ∧
    (withdrawAnnual true now caller a s).isOk = true := by
  refine ⟨?_, ?_, ?_⟩
  · simp [stake, hp]
  · have h1 : ¬ ((s.accounts caller).deposited < (s.accounts caller).staked) :=
      by omega
    have h2 : ¬ ((s.accounts caller).deposited
        - (s.accounts caller).staked < p) := by omega
    simp only [withdrawPrincipal]
    rw [if_neg h1, if_neg h2]
    rfl
  · have h1 : ¬ ((s.accounts caller).staked < a) := by omega
    have h2 : ¬ ((s.accounts caller).staked = 0) := by omega
    have h3 : ¬ (now < (if (s.accounts caller).stakeStart = 0 then now
        else (s.accounts caller).stakeStart)) := by
      split_ifs <;> omega
    have h3' : ¬ (¬ (s.accounts caller).stakeStart = 0
        ∧ now < (s.accounts caller).stakeStart) := by omega
    have h4 : ¬ (s.totalStaked < a) := by omega
    have h5 : ¬ ((s.accounts caller).deposited < a) := by omega
    simp [withdrawAnnual, ha0, h1, h2, h3, h3', h4, h5, Except.isOk,
      Except.toBool, apply_ite]

theorem pause_never_traps_witness :
    stake 50 0 9 { sDemo with paused := true } = .error .enforcedPause ∧
    (withdrawPrincipal true 50 0 5 true
      { sDemo with paused := true }).isOk = true ∧
    (withdrawAnnual true 50 0 7 { sDemo with paused := true }).isOk = true :=
  pause_never_traps { sDemo with paused := true } 50 0 9 5 7 true rfl
    (by decide) (by decide) (by decide) (by decide) (by decide) (by decide)

/-! ## C5: the withdrawAnnual error taxonomy -/

/-- C5 (counterexample): the claim says an account with `staked == 0` and a
nonzero amount fails with `NothingStaked`; the code checks
`staked < amount` first, so `withdrawAnnual(1)` on a zero-stake account
fails with `InsufficientBalance(0, 1)` instead — the `NothingStaked` check
is unreachable. -/
theorem withdrawAnnual_nothingStaked_unreachable_cex :
    withdrawAnnual true 10 (0 : Fin 1) 1 sNoStake
      = .error (.insufficientBalance 0 1) ∧
    Err.insufficientBalance 0 1 ≠ Err.nothingStaked :=
  ⟨rfl, by decide⟩

set_option maxHeartbeats 1600000 in
/-- C5 (amended): `withdrawAnnual` fails `InvalidAmount` if `amount == 0`;
otherwise, if `amount > staked` — which includes every zero-stake account —
it fails `InsufficientBalance(staked, amount)` (the spec's
`InsufficientStaked`); the `NothingStaked` error is never raised on any
path. -/
theorem withdrawAnnual_error_taxonomy {n : Nat} (tOk : Bool) (now : Nat)
    (c : Fin n) (amt : Nat) (s : State n) :
    (amt = 0 → withdrawAnnual tOk now c amt s = .error .invalidAmount) ∧
    (amt ≠ 0 → (s.accounts c).staked < amt →
      withdrawAnnual tOk now c amt s
        = .error (.insufficientBalance (s.accounts c).staked amt)) ∧
    (∀ e, withdrawAnnual tOk now c amt s = .error e → e ≠ .nothingStaked) := by
  refine ⟨?_, ?_, ?_⟩
  · intro h0
    simp [withdrawAnnual, h0]
  · intro h0 h1
    simp [withdrawAnnual, h0, h1]
  · intro e he hcontra
    subst hcontra
    simp only [withdrawAnnual] at he
    split_ifs at he <;>
      first
        | exact Except.noConfusion he
        | (injection he with h'; exact Err.noConfusion h')
        | omega

theorem withdrawAnnual_error_taxonomy_witness :
    withdrawAnnual true 10 (0 : Fin 1) 1 sNoStake
      = .error (.insufficientBalance 0 1) :=
  (withdrawAnnual_error_taxonomy true 10 0 1 sNoStake).2.1 (by decide) (by decide)

/-! ## C7: the Scenario E value -/

/-- C7 (counterexample): in Scenario E (stake 100 at `t0`, call
`withdrawAnnual(50)` after 2,592,000 seconds), the claim asserts the reward
formula truncates to 1 unit; it truncates to 0, so the payout is 50, not
51.  Evaluated here at `t0 = 1000`. -/
theorem scenarioE_reward_cex :
    (withdrawAnnual true (1000 + 2592000) (0 : Fin 1) 50
        (scenarioE 1000)).map Prod.snd = .ok 50 ∧
    50 * 500 * 2592000 / (31536000 * 10000) = 0 ∧ (0 : Nat) ≠ 1 :=
  ⟨rfl, by norm_num, by decide⟩

/-- C7 (amended): for an account that stakes 100 units at `t0 ≠ 0` and
calls `withdrawAnnual(50)` at `t0 + 2,592,000`, the computed reward equals
`50 × 500 × 2592000 / (31536000 × 10000)` with truncating integer division,
which equals 0 units (not 1), and the payout equals `50 + 0 = 50`. -/
theorem scenarioE_value (t0 : Nat) (h0 : t0 ≠ 0) :
    (withdrawAnnual true (t0 + 2592000) (0 : Fin 1) 50
        (scenarioE t0)).map Prod.snd
      = .ok (50 + 50 * ANNUAL_RATE_BPS * 2592000 / (SECONDS_PER_YEAR * 10000))
    ∧ 50 * ANNUAL_RATE_BPS * 2592000 / (SECONDS_PER_YEAR * 10000) = 0 := by
  have h1 : ¬ (t0 + 2592000 < t0) := by omega
  constructor
  · simp [withdrawAnnual, scenarioE, h0, h1, Except.map]
  · norm_num [ANNUAL_RATE_BPS, SECONDS_PER_YEAR]

theorem scenarioE_value_witness :
    (withdrawAnnual true (1000 + 2592000) (0 : Fin 1) 50
        (scenarioE 1000)).map Prod.snd
      = .ok (50 + 50 * ANNUAL_RATE_BPS * 2592000 / (SECONDS_PER_YEAR * 10000))
    ∧ 50 * ANNUAL_RATE_BPS * 2592000 / (SECONDS_PER_YEAR * 10000) = 0 :=
  scenarioE_value 1000 (by decide)

/-! ## C8: depositGeneric touches no account -/

/-- C8 (counterexample): the claim says a successful `depositGeneric` first
runs the accrual commit on the caller, setting the account's `lastUpdate`
to `now`.  The code never calls `_updateRewards` on this path: at `now = 42`
the call succeeds yet the caller's `lastUpdate` is still 10. -/
theorem depositGeneric_no_commit_cex :
    depositGeneric true 42 (0 : Fin 1) 7 3 sDemo = .ok sDemo ∧
    (sDemo.accounts 0).lastUpdate = 10 ∧ (10 : Nat) ≠ 42 :=
  ⟨rfl, rfl, by decide⟩

/-- C8 (amended): `depositGeneric` performs only the custody inflow.  It
does not call the accrual commit and returns the ledger state exactly
unchanged — every account field, including `lastUpdate`, as well as
`deposited`, `staked` and `rewardsAccrued`, is untouched. -/
theorem depositGeneric_pure_custody {n : Nat} (now : Nat) (c : Fin n)
    (token amt : Nat) (s : State n) (hp : s.paused = false) (ha : amt ≠ 0)
    (ht : token ≠ 0) :
    depositGeneric true now c token amt s = .ok s := by
  simp [depositGeneric, hp, ha, ht]

theorem depositGeneric_pure_custody_witness :
    depositGeneric true 42 (0 : Fin 1) 7 3 sDemo = .ok sDemo :=
  depositGeneric_pure_custody 42 0 7 3 sDemo rfl (by decide) (by decide)

/-! ## C9: lazy accrual applies the current rate retroactively -/

/-- C9: retroactive rate application.  Because accrual is lazy, an admin's
`setRewardRate(newRate)` leaves every account record untouched, and the
next accrual commit then applies `newRate` to the entire elapsed interval
since the account's `lastUpdate` — time that elapsed before the rate change
is rewarded as if `newRate` had been in force throughout, with the old rate
playing no role. -/
theorem setRewardRate_retroactive {n : Nat} (s : State n)
    (admin caller : Fin n) (newRate now : Nat)
    (hadm : s.admins admin = true)
    (h0 : (s.accounts caller).lastUpdate ≠ 0)
    (hst : (s.accounts caller).staked ≠ 0)
    (hlt : (s.accounts caller).lastUpdate < now) :
    ∃ s', setRewardRate admin newRate s = .ok s' ∧
      s'.accounts caller = s.accounts caller ∧
      (updateRewards s'.rewardRate now (s'.accounts caller)).rewardsAccrued
        = (s.accounts caller).rewardsAccrued
          + ((s.accounts caller).staked * newRate
              * (now - (s.accounts caller).lastUpdate)
             + (s.accounts caller).rewardRemainder) / SCALE := by
  refine ⟨{ s with rewardRate := newRate }, by simp [setRewardRate, hadm],
    rfl, ?_⟩
  rw [show ({ s with rewardRate := newRate } : State n).rewardRate = newRate
    from rfl]
  rw [show ({ s with rewardRate := newRate } : State n).accounts caller
      = s.accounts caller from rfl]
  rw [updateRewards_of_pos newRate now (s.accounts caller) h0 hst hlt]

theorem setRewardRate_retroactive_witness :
    ∃ s', setRewardRate (0 : Fin 1) 7 sDemo = .ok s' ∧
      s'.accounts 0 = sDemo.accounts 0 ∧
      (updateRewards s'.rewardRate 50 (s'.accounts 0)).rewardsAccrued
        = (sDemo.accounts 0).rewardsAccrued
          + ((sDemo.accounts 0).staked * 7 * (50 - (sDemo.accounts 0).lastUpdate)
             + (sDemo.accounts 0).rewardRemainder) / SCALE :=
  setRewardRate_retroactive sDemo 0 0 7 50 rfl (by decide) (by decide)
    (by decide)

/-! ## C10: claiming rewards with zero principal -/

/-- C10: zero-principal reward claim.  `withdrawPrincipal(0, true)` has no
zero-amount check, so (for any account respecting the `staked ≤ deposited`
invariant, with a working transfer) it always succeeds: it pays out exactly
the `rewardsAccrued` produced by the accrual commit the call performs,
resets `rewardsAccrued` to 0, and leaves `deposited` and `staked`
unchanged. -/
theorem withdrawPrincipal_zero_claim {n : Nat} (s : State n) (caller : Fin n)
    (now : Nat)
    (hsd : (s.accounts caller).staked ≤ (s.accounts caller).deposited) :
    ∃ s' out, withdrawPrincipal true now caller 0 true s = .ok (s', out)
      ∧ out = (updateRewards s.rewardRate now (s.accounts caller)).rewardsAccrued
      ∧ (s'.accounts caller).deposited = (s.accounts caller).deposited
      ∧ (s'.accounts caller).staked = (s.accounts caller).staked
      ∧ (s'.accounts caller).rewardsAccrued = 0 := by
  simp only [withdrawPrincipal]
  rw [if_neg (by omega :
    ¬ (s.accounts caller).deposited < (s.accounts caller).staked)]
  rw [if_neg (Nat.not_lt_zero ((s.accounts caller).deposited
    - (s.accounts caller).staked))]
  refine ⟨_, _, rfl, Nat.zero_add _, ?_, ?_, ?_⟩ <;> simp [Function.update]

theorem withdrawPrincipal_zero_claim_witness :
    ∃ s' out, withdrawPrincipal true 50 (0 : Fin 1) 0 true sDemo = .ok (s', out)
      ∧ out = (updateRewards sDemo.rewardRate 50 (sDemo.accounts 0)).rewardsAccrued
      ∧ (s'.accounts 0).deposited = (sDemo.accounts 0).deposited
      ∧ (s'.accounts 0).staked = (sDemo.accounts 0).staked
      ∧ (s'.accounts 0).rewardsAccrued = 0 :=
  withdrawPrincipal_zero_claim sDemo 0 50 (by decide)

end InstitutionalStaking
